import Mathlib

/-!
Verification of the item/tag lifecycle store, export pipeline, page scanner
and import logic of the AssetConnect browser extension.

The JavaScript sources are shallowly embedded: the persisted `boothItems`
object becomes an association list `Store`; JS `undefined`/`null`/string
arguments of update calls become the three-valued `JStr` (resp. `JCat` for
category-valued fields), since the code distinguishes `!== undefined` checks
from truthiness checks.  A stored field that the code never writes is `none`.
A JS field assigned `null` is collapsed to `none`: every reader in the source
(`item.currentPageId === currentPageId`, truthiness guards) treats a `null`
field exactly like an absent one.
-/

namespace AssetConnect

/-- Lifecycle category of an item or tag record (storage-manager.js). -/
inductive Cat where
  | unsaved
  | saved
  | excluded
  | permanentlyExcluded
deriving DecidableEq, Repr

/-- A stored item (or tag) record.  `lastExported`/`exportCount` are included
because the export path passes them to `updateItem`; the write path decides
whether they are ever persisted. -/
structure Item where
  id : String
  name : String
  category : Cat
  currentPageId : Option String
  previousCategory : Option Cat
  lastExported : Option String
  exportCount : Option Nat
deriving DecidableEq, Repr

/-- The persisted `boothItems` map: a JS object, i.e. an association list of
unique keys in insertion order. -/
abbrev Store := List (String × Item)

/-- A JS optional string argument: `undefined`, `null`, or a string. -/
inductive JStr where
  | undef
  | null
  | str (s : String)
deriving DecidableEq, Repr

/-- A JS optional category argument: `undefined`, `null`, or a category. -/
inductive JCat where
  | undef
  | null
  | cat (c : Cat)
deriving DecidableEq, Repr

/-- JS truthiness of a `JStr` (`undefined`, `null` and `""` are falsy). -/
def JStr.truthy : JStr → Bool
  | .str s => s ≠ ""
  | _ => false

/-- The string value carried by a `JStr`, if any. -/
def JStr.toOpt : JStr → Option String
  | .str s => some s
  | _ => none

/-- JS truthiness of a `JCat` (category names are nonempty strings, so a
present category is always truthy). -/
def JCat.truthy : JCat → Bool
  | .cat _ => true
  | _ => false

/-- The category carried by a `JCat`, if any. -/
def JCat.toOpt : JCat → Option Cat
  | .cat c => some c
  | _ => none

/-- JS truthiness of a stored optional string field. -/
def strTruthy : Option String → Bool
  | some s => s ≠ ""
  | none => false

/-- Property read `items[itemId]` on a JS object: the (unique) binding. -/
def getEntry : Store → String → Option Item
  | [], _ => none
  | (k, v) :: rest, k' => if k = k' then some v else getEntry rest k'

/-- Property write `items[itemId] = v`: replaces an existing binding in
place, otherwise appends (JS object key insertion order). -/
def setEntry : Store → String → Item → Store
  | [], k, v => [(k, v)]
  | (k₀, v₀) :: rest, k, v =>
      if k₀ = k then (k, v) :: rest else (k₀, v₀) :: setEntry rest k v

/-- Property delete `delete items[itemId]`. -/
def delEntry : Store → String → Store
  | [], _ => []
  | (k₀, v₀) :: rest, k =>
      if k₀ = k then delEntry rest k else (k₀, v₀) :: delEntry rest k

/-- The update payload of a `StorageManager.updateItem` call. -/
structure UpdateData where
  name : Option String
  category : Option Cat
  currentPageId : JStr
  previousCategory : JCat
  lastExported : Option String
  exportCount : Option Nat
deriving DecidableEq, Repr

/-- The payload of a `StorageManager.saveItem` call. -/
structure SaveData where
  name : String
  category : Option Cat
  currentPageId : JStr
  previousCategory : JCat
deriving DecidableEq, Repr

/-- `StorageManager.saveItem` (storage-manager.js:55-85): always writes the
minimal record shape; `currentPageId` only for truthy input and category
`unsaved`/`excluded`; `previousCategory` only for category `excluded`. -/
def saveRecord (itemId : String) (d : SaveData) : Item :=
  let cat := d.category.getD .unsaved
  { id := itemId
    name := d.name
    category := cat
    currentPageId :=
      if d.currentPageId.truthy ∧ (cat = .unsaved ∨ cat = .excluded) then
        d.currentPageId.toOpt
      else none
    previousCategory :=
      if cat = .excluded ∧ d.previousCategory.truthy then
        d.previousCategory.toOpt
      else none
    lastExported := none
    exportCount := none }

/-- `StorageManager.saveItem` (storage-manager.js:55-85). -/
def saveItem (s : Store) (itemId : String) (d : SaveData) : Store :=
  setEntry s itemId (saveRecord itemId d)

/-- The record written by `StorageManager.updateItem` for a missing id
(storage-manager.js:128-151): a fresh minimal record. -/
def updateFresh (itemId : String) (u : UpdateData) : Item :=
  let cat := u.category.getD .unsaved
  { id := itemId
    name := u.name.getD ""
    category := cat
    currentPageId :=
      if u.currentPageId.truthy ∧ (cat = .unsaved ∨ cat = .excluded) then
        u.currentPageId.toOpt
      else none
    previousCategory :=
      if cat = .excluded ∧ u.previousCategory.truthy then
        u.previousCategory.toOpt
      else none
    lastExported := none
    exportCount := none }

/-- The record written by `StorageManager.updateItem` for an existing record
(storage-manager.js:154-187): the object literal holds only `id`, `name` and
`category`; `currentPageId` is kept/taken only while the new category is
`unsaved`/`excluded` (an explicit `undefined` in the payload falls back to a
truthy existing value, an explicit value overwrites); `previousCategory` is
kept/taken only while the new category is `excluded`.  The payload's
`lastExported`/`exportCount` never reach the written object. -/
def updateExisting (itemId : String) (ex : Item) (u : UpdateData) : Item :=
  let cat := u.category.getD ex.category
  { id := itemId
    name := u.name.getD ex.name
    category := cat
    currentPageId :=
      if cat = .unsaved ∨ cat = .excluded then
        match u.currentPageId with
        | .str p => some p
        | .null => none
        | .undef => if strTruthy ex.currentPageId then ex.currentPageId else none
      else none
    previousCategory :=
      if cat = .excluded then
        match u.previousCategory with
        | .cat c => some c
        | _ => ex.previousCategory
      else none
    lastExported := none
    exportCount := none }

/-- `StorageManager.updateItem` (storage-manager.js:124-194): upsert. -/
def updateItem (s : Store) (itemId : String) (u : UpdateData) : Store :=
  match getEntry s itemId with
  | none => setEntry s itemId (updateFresh itemId u)
  | some ex => setEntry s itemId (updateExisting itemId ex u)

/-- `StorageManager.deleteItem` (storage-manager.js:201-212). -/
def deleteItem (s : Store) (itemId : String) : Store :=
  delEntry s itemId

/-- `StorageManager.hasItem` (storage-manager.js:219-222). -/
def hasItem (s : Store) (itemId : String) : Bool :=
  (getEntry s itemId).isSome

/-- `StorageManager.getItemsForCurrentPage` (storage-manager.js:230-252):
keeps `saved` entries and `unsaved`/`excluded` entries whose `currentPageId`
equals the given page id.  (There is no branch for `permanentlyExcluded`.) -/
def getItemsForCurrentPage (s : Store) (currentPageId : String) : Store :=
  s.filter fun e =>
    decide (e.2.category = .saved) ||
      (decide (e.2.category = .unsaved ∨ e.2.category = .excluded) &&
        decide (e.2.currentPageId = some currentPageId))

/-- `UIManager.handleEntityExclude` (ui-manager.js:310-333): moves a record
to `excluded`, recording the displayed category as `previousCategory` and the
UI's current page id (`this.currentItemId`, `null` on a non-item page) as
`currentPageId`. -/
def handleEntityExclude (s : Store) (entityId : String) (currentCategory : Cat)
    (pageId : Option String) : Store :=
  updateItem s entityId
    { name := none
      category := some .excluded
      previousCategory := .cat currentCategory
      currentPageId := match pageId with | some p => .str p | none => .null
      lastExported := none
      exportCount := none }

/-- `UIManager.handleEntityRestore` (ui-manager.js:341-368): moves a record
back to `originalCategory`; `currentPageId` is passed only when restoring to
`unsaved`, and `previousCategory` is passed as `null`. -/
def handleEntityRestore (s : Store) (entityId : String) (originalCategory : Cat)
    (pageId : Option String) : Store :=
  updateItem s entityId
    { name := none
      category := some originalCategory
      previousCategory := .null
      currentPageId :=
        if originalCategory = .unsaved then
          match pageId with | some p => .str p | none => .null
        else .undef
      lastExported := none
      exportCount := none }

/-- `UIManager.handleEntityPermanentlyExclude` (ui-manager.js:375-401):
moves a record to `permanentlyExcluded`, passing
`previousCategory || category || unsaved` of the current record and
`currentPageId: undefined`. -/
def handleEntityPermanentlyExclude (s : Store) (entityId : String) : Store :=
  let prev : Cat :=
    match getEntry s entityId with
    | some e => (e.previousCategory.getD e.category)
    | none => .unsaved
  updateItem s entityId
    { name := none
      category := some .permanentlyExcluded
      previousCategory := .cat prev
      currentPageId := .undef
      lastExported := none
      exportCount := none }

/-- The `data-original-category` attribute of the restore button
(ui-manager.js:1478): `previousCategory || unsaved` of the rendered record. -/
def restoreOriginalCategory (s : Store) (entityId : String) : Cat :=
  match getEntry s entityId with
  | some e => e.previousCategory.getD .unsaved
  | none => .unsaved

/-- Excluding a record and then clicking its restore button on the same page:
the restore target is the recorded `previousCategory`. -/
def excludeThenRestore (s : Store) (entityId : String) (currentCategory : Cat)
    (pageId : Option String) : Store :=
  let s₁ := handleEntityExclude s entityId currentCategory pageId
  handleEntityRestore s₁ entityId (restoreOriginalCategory s₁ entityId) pageId

/-! ## Export pipeline (ClipboardManager, storage-manager.js:422-625) -/

/-- Result of `exportSavedAndNewItems`, reduced to the fields the spec talks
about (the human-readable message strings are dropped). -/
structure ExportResult where
  success : Bool
  itemCount : Nat
deriving DecidableEq, Repr

/-- The `updateData` built for each exported new item in
`ClipboardManager.processPostExportActions` (storage-manager.js:552-557). -/
def postExportUpdateData (ts : String) (prevCount : Option Nat) : UpdateData :=
  { name := none
    category := some .saved
    lastExported := some ts
    exportCount := some (prevCount.getD 0 + 1)
    currentPageId := .undef
    previousCategory := .undef }

/-- The stale-editing-record test of step 3 (storage-manager.js:590-591): an
`unsaved`/`excluded` record with a truthy `currentPageId` differing from the
current page. -/
def stalePredicate (currentPageId : String) (it : Item) : Bool :=
  decide (it.category = .unsaved ∨ it.category = .excluded) &&
    strTruthy it.currentPageId &&
    decide (it.currentPageId ≠ some currentPageId)

/-- `ClipboardManager.processPostExportActions` (storage-manager.js:543-625):
promotes every exported new item to `saved`, deletes the given excluded
items, then deletes every remaining stale editing record. -/
def processPostExportActions (s : Store) (newItems excludedItems : List Item)
    (currentPageId : String) (ts : String) : Store :=
  let s₁ := newItems.foldl
    (fun st it => updateItem st it.id (postExportUpdateData ts it.exportCount)) s
  let s₂ := excludedItems.foldl (fun st it => deleteItem st it.id) s₁
  s₂.foldl
    (fun st e => if stalePredicate currentPageId e.2 then deleteItem st e.1 else st)
    s₂

/-- The page-restricted store of `exportSavedAndNewItems`
(storage-manager.js:437-455): stored entries whose id is the current page's
own id or was found by the scanner on the page. -/
def pageItemsOf (s : Store) (currentItemId : String) (scannedIds : List String) :
    Store :=
  s.filter fun e => decide (e.1 = currentItemId ∨ e.1 ∈ scannedIds)

/-- The eligible export set: `saved` page items then `unsaved` page items
(storage-manager.js:457-462). -/
def exportEligible (s : Store) (currentItemId : String)
    (scannedIds : List String) : List Item :=
  let pageItems := (pageItemsOf s currentItemId scannedIds).map (·.2)
  pageItems.filter (fun it => decide (it.category = .saved)) ++
    pageItems.filter (fun it => decide (it.category = .unsaved))

/-- `ClipboardManager.exportSavedAndNewItems` (storage-manager.js:422-497).
The clipboard write is external; its outcome is the `copyOk` parameter.  On a
missing page id, an empty eligible set, or a failed copy the function
returns failure without touching the store; otherwise it runs
`processPostExportActions`. -/
def exportSavedAndNewItems (s : Store) (currentItemId : Option String)
    (scannedIds : List String) (copyOk : Bool) (ts : String) :
    ExportResult × Store :=
  match currentItemId with
  | none => ({ success := false, itemCount := 0 }, s)
  | some cur =>
    let pageItems := (pageItemsOf s cur scannedIds).map (·.2)
    let newItems := pageItems.filter (fun it => decide (it.category = .unsaved))
    let excludedItems :=
      pageItems.filter (fun it => decide (it.category = .excluded))
    let exportItems := exportEligible s cur scannedIds
    if exportItems.isEmpty then ({ success := false, itemCount := 0 }, s)
    else if !copyOk then ({ success := false, itemCount := 0 }, s)
    else
      ({ success := true, itemCount := exportItems.length },
        processPostExportActions s newItems excludedItems cur ts)

/-! ## Page analysis (booth_item_management.js) -/

/-- Modelled from the spec: `getPermanentlyExcludedIds()` returns the ids of
all records whose category is `permanentlyExcluded`.  The method
`storageManager.getPermanentlyExcludedItemIds` is invoked at
booth_item_management.js:101 but its definition (like the tag-store methods
`getTag`/`updateTag`/`saveTag` invoked from ui-manager.js) is not among the
provided source files; spec section 4.1 specifies it. -/
def getPermanentlyExcludedItemIds (s : Store) : List String :=
  (s.filter fun e => decide (e.2.category = .permanentlyExcluded)).map (·.1)

/-- The new-item filter of `handlePageAnalysis`
(booth_item_management.js:99-118): scanner candidates that are neither
permanently excluded nor already stored. -/
def handlePageAnalysisNewItems (s : Store) (itemsToFetch : List String) :
    List String :=
  let pex := getPermanentlyExcludedItemIds s
  itemsToFetch.filter fun id => decide (id ∉ pex) && !(hasItem s id)

/-! ## Lifecycle operation language (for the storage-shape invariant) -/

/-- One lifecycle-store operation, as issued by the application code. -/
inductive Op where
  | save (id : String) (d : SaveData)
  | update (id : String) (u : UpdateData)
  | del (id : String)
  | exclude (id : String) (currentCategory : Cat) (pageId : Option String)
  | restore (id : String) (originalCategory : Cat) (pageId : Option String)
  | permanentlyExclude (id : String)
  | exportRun (currentItemId : Option String) (scannedIds : List String)
      (copyOk : Bool) (ts : String)

/-- Effect of one operation on the store. -/
def applyOp (s : Store) : Op → Store
  | .save id d => saveItem s id d
  | .update id u => updateItem s id u
  | .del id => deleteItem s id
  | .exclude id c p => handleEntityExclude s id c p
  | .restore id c p => handleEntityRestore s id c p
  | .permanentlyExclude id => handleEntityPermanentlyExclude s id
  | .exportRun cur scan ok ts => (exportSavedAndNewItems s cur scan ok ts).2

/-- Run a sequence of lifecycle operations from the empty store. -/
def runOps (ops : List Op) : Store :=
  ops.foldl applyOp []

/-- The record-shape invariant the write path actually enforces:
`currentPageId` only on `unsaved`/`excluded` records, `previousCategory`
only on `excluded` records. -/
def shapeOK (it : Item) : Prop :=
  (it.currentPageId.isSome → it.category = .unsaved ∨ it.category = .excluded) ∧
    (it.previousCategory.isSome → it.category = .excluded)

instance (it : Item) : Decidable (shapeOK it) := by
  unfold shapeOK; infer_instance

/-! ## JSON item-list import (src/unnamed/part_001, `handleImport`) -/

/-- Merge mode of the JSON import page. -/
inductive JsonMergeMode where
  | skip
  | replace
deriving DecidableEq, Repr

/-- The record created for an imported id that is not yet stored
(part_001:199-203): exactly `id`, `name` and category `saved`. -/
def freshImportItem (id nm : String) : Item :=
  { id := id
    name := nm
    category := .saved
    currentPageId := none
    previousCategory := none
    lastExported := none
    exportCount := none }

/-- The merge loop of `handleImport` (part_001:182-206): per imported
`(id, name)` pair, skip or overwrite only `name` (object spread) when the id
exists, create a fresh `saved` record otherwise. -/
def importStep (mode : JsonMergeMode) (st : Store) (p : String × String) : Store :=
  match getEntry st p.1 with
  | some ex =>
    match mode with
    | .skip => st
    | .replace => setEntry st p.1 { ex with name := p.2 }
  | none => setEntry st p.1 (freshImportItem p.1 p.2)

/-- The whole merge loop of `handleImport`. -/
def handleImportItems (existingItems : Store)
    (imported : List (String × String)) (mode : JsonMergeMode) : Store :=
  imported.foldl (importStep mode) existingItems

/-! ## Download-history CSV import (src/storage-management/import-csv.js) -/

/-- One download-history entry as parsed from a CSV row. -/
structure HistEntry where
  url : String
  timestamp : String
  boothID : String
  title : String
  filename : String
  free : Bool
  registered : Bool
deriving DecidableEq, Repr

/-- Both-ends whitespace trim (`String.prototype.trim`). -/
def trimChars (l : List Char) : List Char :=
  ((l.dropWhile Char.isWhitespace).reverse.dropWhile Char.isWhitespace).reverse

/-- Number of double quotes in a character list. -/
def quoteCount (l : List Char) : Nat :=
  l.countP (fun c => c == '"')

/-- The quote-aware comma split of import-csv.js:199 — a comma is a field
separator exactly when it is followed by an even number of quotes. -/
def splitCSVLine : List Char → List (List Char)
  | [] => [[]]
  | c :: rest =>
      if c = ',' ∧ quoteCount rest % 2 = 0 then
        [] :: splitCSVLine rest
      else
        match splitCSVLine rest with
        | [] => [[c]]
        | f :: fs => (c :: f) :: fs

/-- `replaceAll(/^"|"$/g, '')`: removes one leading and one trailing double
quote. -/
def stripOuterQuotes (l : List Char) : List Char :=
  let l₁ := match l with | '"' :: t => t | _ => l
  if l₁.getLast? = some '"' then l₁.dropLast else l₁

/-- Field normalisation of import-csv.js:199: strip outer quotes, then trim. -/
def csvField (l : List Char) : List Char :=
  trimChars (stripOuterQuotes l)

/-- One CSV data row (import-csv.js:201-241): a 2-field `http…` row is the
legacy pipe-separated format; a row of 6 or more fields is the regular
format; anything else is dropped. -/
def parseCSVRow (fields : List (List Char)) : Option HistEntry :=
  if fields.length = 2 ∧ (fields.headD []).take 4 = ['h','t','t','p'] then
    let url := fields.headD []
    let metadata := (fields.drop 1).headD []
    let parts := metadata.splitOn '|'
    if 4 ≤ parts.length then
      some
        { url := String.mk url
          timestamp := String.mk (parts.getD 0 [])
          boothID := String.mk (parts.getD 1 [])
          title := String.mk (parts.getD 2 [])
          filename := String.mk (parts.getD 3 [])
          free := false
          registered := false }
    else none
  else if 6 ≤ fields.length then
    some
      { url := String.mk (fields.getD 0 [])
        timestamp := String.mk (fields.getD 1 [])
        boothID := String.mk (fields.getD 2 [])
        title := String.mk (fields.getD 3 [])
        filename := String.mk (fields.getD 4 [])
        free := decide ((fields.getD 5 []).map Char.toLower = ['t','r','u','e'])
        registered :=
          if fields.getD 6 [] ≠ [] then
            decide ((fields.getD 6 []).map Char.toLower = ['t','r','u','e'])
          else false }
  else none

/-- One line of the CSV body: trim, skip if empty, split and normalise
fields, parse the row. -/
def parseCSVLine (l : List Char) : Option HistEntry :=
  let t := trimChars l
  if t = [] then none
  else parseCSVRow ((splitCSVLine t).map csvField)

/-- `parseCSV` (import-csv.js:181-249): trims the text, splits into lines,
requires at least two lines (header plus data; `none` models the thrown
error), and parses every subsequent non-empty line.  The unused header
column split and the `format` tag are omitted as they do not affect the
parsed items. -/
def parseCSV (csvText : String) : Option (List HistEntry) :=
  let lines := (trimChars csvText.data).splitOn '\n'
  if lines.length < 2 then none
  else some ((lines.drop 1).filterMap parseCSVLine)

/-- Merge mode of the CSV import page. -/
inductive CsvMergeMode where
  | replace
  | merge
deriving DecidableEq, Repr

/-- `performImport` (import-csv.js:288-353): `replace` stores the parsed
rows as-is; `merge` appends each parsed row whose URL is not among the
pre-existing history's URLs (the URL set is built once, before the loop). -/
def performImport (parsedItems downloadHistory : List HistEntry)
    (mode : CsvMergeMode) : List HistEntry :=
  match mode with
  | .replace => parsedItems
  | .merge =>
    let existingUrls := downloadHistory.map (·.url)
    parsedItems.foldl
      (fun h it => if it.url ∈ existingUrls then h else h ++ [it])
      downloadHistory

/-! ## Page reference scanner (src/unnamed/part_000, `PageParser`)

The two URL regexes of part_000:8-11 are embedded as deterministic
backtracking parsers over character lists.  `matchPat true` is the
subdomain-capable pattern `https?://([\w-]+\.)?booth\.pm/([\w-]+/)?items/(\d+)`
(the optional groups written as ordered alternatives, group-present first,
exactly as the regex engine tries them); `matchPat false` is the
main-domain pattern without the subdomain group. -/

/-- The characters of `http`. -/
def httpChars : List Char := ['h', 't', 't', 'p']

/-- The characters of `://`. -/
def schemeSepChars : List Char := [':', '/', '/']

/-- The characters of `booth.pm/`. -/
def boothHostChars : List Char := ['b', 'o', 'o', 't', 'h', '.', 'p', 'm', '/']

/-- The characters of `items/`. -/
def itemsSegChars : List Char := ['i', 't', 'e', 'm', 's', '/']

/-- Consume an expected literal run of characters. -/
def eatPre : List Char → List Char → Option (List Char)
  | [], s => some s
  | _ :: _, [] => none
  | p :: ps, c :: cs => if p = c then eatPre ps cs else none

/-- The regex character class `[\w-]`. -/
def isWordDash (c : Char) : Bool :=
  c.isAlphanum || c = '_' || c = '-'

/-- Consume the capture group `(\d+)` greedily. -/
def parseDigits (s : List Char) : Option (List Char × List Char) :=
  let d := s.takeWhile Char.isDigit
  if d.isEmpty then none else some (d, s.drop d.length)

/-- Consume `[\w-]+` followed by the literal terminator `term` (`.` for the
subdomain group, `/` for the path group).  The maximal label is the only
candidate the regex can take, since the terminator is not a `[\w-]`
character. -/
def wordSeg (term : Char) (t : List Char) : Option (List Char) :=
  let lbl := t.takeWhile isWordDash
  if lbl.isEmpty then none
  else
    match t.drop lbl.length with
    | c :: rest => if c = term then some rest else none
    | [] => none

/-- Consume `(?:[\w-]+/)?items/(\d+)`: the optional path segment is tried
first and abandoned if the rest of the pattern fails after it. -/
def itemsPath (t : List Char) : Option (List Char × List Char) :=
  (match wordSeg '/' t with
   | some t' => (eatPre itemsSegChars t').bind parseDigits
   | none => none) <|>
  (eatPre itemsSegChars t).bind parseDigits

/-- Consume `(?:[\w-]+\.)?booth\.pm/(?:[\w-]+/)?items/(\d+)` (with the
subdomain group only when `withSub`), optional-group-present first. -/
def hostAndPath (withSub : Bool) (t : List Char) : Option (List Char × List Char) :=
  (if withSub then
    match wordSeg '.' t with
    | some t' => (eatPre boothHostChars t').bind itemsPath
    | none => none
  else none) <|>
  (eatPre boothHostChars t).bind itemsPath

/-- Consume `https?://`. -/
def schemeRest (s : List Char) : Option (List Char) :=
  match eatPre httpChars s with
  | none => none
  | some t₁ =>
    let t₂ := match t₁ with | 's' :: r => r | _ => t₁
    eatPre schemeSepChars t₂

/-- Try one of the two item-URL regexes at the start of `s`, returning the
captured digit run and the remainder after the match. -/
def matchPat (withSub : Bool) (s : List Char) : Option (List Char × List Char) :=
  match schemeRest s with
  | none => none
  | some t => hostAndPath withSub t

/-- `eatPre` only ever removes characters. -/
def eatPre_len : ∀ (p s t : List Char), eatPre p s = some t → t.length ≤ s.length := by
  intro p
  induction p with
  | nil =>
    intro s t h
    simp only [eatPre, Option.some.injEq] at h
    exact h ▸ Nat.le_refl _
  | cons a ps ih =>
    intro s t h
    cases s with
    | nil => simp [eatPre] at h
    | cons c cs =>
      simp only [eatPre] at h
      split at h
      · have := ih cs t h
        simp only [List.length_cons]
        omega
      · exact absurd h (by simp)

/-- `parseDigits` consumes at least one character. -/
def parseDigits_len : ∀ (s d r : List Char), parseDigits s = some (d, r) → r.length < s.length := by
  intro s d r h
  simp only [parseDigits] at h
  split at h
  · exact absurd h (by simp)
  · rename_i hne
    simp only [Option.some.injEq, Prod.mk.injEq] at h
    obtain ⟨hd, hr⟩ := h
    have h₁ : (s.takeWhile Char.isDigit).length ≤ s.length := (List.takeWhile_sublist _).length_le
    have h₂ : (s.takeWhile Char.isDigit).length ≠ 0 := by
      intro h0
      exact hne (List.eq_nil_of_length_eq_zero h0 ▸ rfl)
    subst hr
    simp only [List.length_drop]
    omega

/-- `wordSeg` consumes at least one character. -/
def wordSeg_len : ∀ (c : Char) (t r : List Char), wordSeg c t = some r → r.length < t.length := by
  intro c t r h
  simp only [wordSeg] at h
  split at h
  · exact absurd h (by simp)
  · rename_i hne
    split at h
    · rename_i c' rest hdrop
      have h₂ : rest.length < t.length := by
        have h₃ : (t.drop (t.takeWhile isWordDash).length).length ≤ t.length := by
          simp only [List.length_drop]; omega
        rw [hdrop] at h₃
        simp only [List.length_cons] at h₃
        omega
      split at h
      · simp only [Option.some.injEq] at h
        exact h ▸ h₂
      · exact absurd h (by simp)
    · exact absurd h (by simp)

/-- `itemsPath` consumes at least one character. -/
def itemsPath_len : ∀ (t d r : List Char), itemsPath t = some (d, r) → r.length < t.length := by
  intro t d r h
  simp only [itemsPath] at h
  rcases (Option.orElse_eq_some _ _ _).mp h with h' | ⟨-, h'⟩
  · split at h'
    · rename_i t' hseg
      cases he : eatPre itemsSegChars t' with
      | none => rw [he] at h'; exact absurd h' (by simp)
      | some t'' =>
        rw [he] at h'
        simp only [Option.some_bind] at h'
        calc r.length < t''.length := parseDigits_len _ _ _ h'
        _ ≤ t'.length := eatPre_len _ _ _ he
        _ ≤ t.length := Nat.le_of_lt (wordSeg_len _ _ _ hseg)
    · exact absurd h' (by simp)
  · cases he : eatPre itemsSegChars t with
    | none => rw [he] at h'; exact absurd h' (by simp)
    | some t'' =>
      rw [he] at h'
      simp only [Option.some_bind] at h'
      calc r.length < t''.length := parseDigits_len _ _ _ h'
      _ ≤ t.length := eatPre_len _ _ _ he

/-- `hostAndPath` consumes at least one character. -/
def hostAndPath_len : ∀ (b : Bool) (t d r : List Char),
    hostAndPath b t = some (d, r) → r.length < t.length := by
  intro b t d r h
  simp only [hostAndPath] at h
  rcases (Option.orElse_eq_some _ _ _).mp h with h' | ⟨-, h'⟩
  · split at h'
    · split at h'
      · rename_i t' hseg
        cases he : eatPre boothHostChars t' with
        | none => rw [he] at h'; exact absurd h' (by simp)
        | some t'' =>
          rw [he] at h'
          simp only [Option.some_bind] at h'
          calc r.length < t''.length := itemsPath_len _ _ _ h'
          _ ≤ t'.length := eatPre_len _ _ _ he
          _ ≤ t.length := Nat.le_of_lt (wordSeg_len _ _ _ hseg)
      · exact absurd h' (by simp)
    · exact absurd h' (by simp)
  · cases he : eatPre boothHostChars t with
    | none => rw [he] at h'; exact absurd h' (by simp)
    | some t'' =>
      rw [he] at h'
      simp only [Option.some_bind] at h'
      calc r.length < t''.length := itemsPath_len _ _ _ h'
      _ ≤ t.length := eatPre_len _ _ _ he

/-- `schemeRest` only ever removes characters. -/
def schemeRest_len : ∀ (s t : List Char), schemeRest s = some t → t.length ≤ s.length := by
  intro s t h
  simp only [schemeRest] at h
  split at h
  · exact absurd h (by simp)
  · rename_i t₁ he₁
    have h₁ : t₁.length ≤ s.length := eatPre_len _ _ _ he₁
    have h₂ : (match t₁ with | 's' :: r => r | _ => t₁).length ≤ t₁.length := by
      split
      · simp only [List.length_cons]; omega
      · exact Nat.le_refl _
    calc t.length ≤ _ := eatPre_len _ _ _ h
    _ ≤ t₁.length := h₂
    _ ≤ s.length := h₁

/-- A regex match consumes at least one character. -/
def matchPat_len : ∀ (b : Bool) (s d r : List Char),
    matchPat b s = some (d, r) → r.length < s.length := by
  intro b s d r h
  simp only [matchPat] at h
  split at h
  · exact absurd h (by simp)
  · rename_i t ht
    calc r.length < t.length := hostAndPath_len _ _ _ _ h
    _ ≤ s.length := schemeRest_len _ _ ht

/-- The `regex.exec` scan loop of `findBoothUrlsInText` (part_000:94-116):
emit the capture of each match and continue after it (`lastIndex`), else
advance one character. -/
def scanPat (b : Bool) (s : List Char) : List (List Char) :=
  match h : matchPat b s with
  | some (d, r) => d :: scanPat b r
  | none =>
    match s with
    | [] => []
    | _ :: t => scanPat b t
termination_by s.length
decreasing_by
  · exact matchPat_len b s d r h
  · simp only [List.length_cons]; omega

/-- The in-order first-wins accumulation used by both the per-pattern `urls`
array and the `foundUrls` map. -/
def addUnique (acc : List (List Char)) (d : List Char) : List (List Char) :=
  if d ∈ acc then acc else acc ++ [d]

/-- `PageParser.findBoothUrlsInText` (part_000:94-116): run both patterns
over the text in order, de-duplicating by extracted id, first occurrence
wins.  Only the ids are retained — the `url`/`cleanUrl` fields do not
influence de-duplication, filtering or counting. -/
def findBoothUrlsInText (text : List Char) : List (List Char) :=
  (scanPat true text ++ scanPat false text).foldl addUnique []

/-- `PageParser.extractBoothItemUrls` (part_000:18-79): ids from the root
element's text content, then from each anchor href, first occurrence wins
(the `foundUrls` map ignores later duplicates). -/
def extractBoothItemUrls (text : List Char) (hrefs : List (List Char)) :
    List (List Char) :=
  (findBoothUrlsInText text ++ (hrefs.map findBoothUrlsInText).flatten).foldl
    addUnique []

/-- `PageParser.parsePageForBoothItems` (part_000:128-149): `totalFound` and
the external items (everything found except the current page's own id). -/
def parsePageForBoothItems (text : List Char) (hrefs : List (List Char))
    (currentItemId : Option (List Char)) : Nat × List (List Char) :=
  let found := extractBoothItemUrls text hrefs
  (found.length, found.filter fun d => decide (some d ≠ currentItemId))

/-- The characters of `https://shop.booth.pm/items/` (subdomain-style URL
head, with a representative shop label). -/
def subUrlChars : List Char :=
  ['h', 't', 't', 'p', 's', ':', '/', '/', 's', 'h', 'o', 'p', '.',
   'b', 'o', 'o', 't', 'h', '.', 'p', 'm', '/', 'i', 't', 'e', 'm', 's', '/']

/-- The characters of `https://booth.pm/ja/items/` (path-style URL head,
with a representative language segment). -/
def pathUrlChars : List Char :=
  ['h', 't', 't', 'p', 's', ':', '/', '/', 'b', 'o', 'o', 't', 'h', '.',
   'p', 'm', '/', 'j', 'a', '/', 'i', 't', 'e', 'm', 's', '/']

/-- A marketplace item URL of either of the two interchangeable shapes. -/
def mkItemUrl (subdomainStyle : Bool) (id : List Char) : List Char :=
  (if subdomainStyle then subUrlChars else pathUrlChars) ++ id

/-! ## Auxiliary definitions for the statements -/

/-- Well-formedness of the persisted map: unique keys (JS object semantics)
and the `id` field of every record equals its key (every writer in the
source stores the key as `id`). -/
def WF (s : Store) : Prop :=
  (s.map Prod.fst).Nodup ∧ ∀ e ∈ s, e.2.id = e.1

instance (s : Store) : Decidable (WF s) := by
  unfold WF; infer_instance

/-- The record an exported `unsaved` item is rewritten to: promoted to
`saved`, with `currentPageId`, `previousCategory` and the export metadata
all absent. -/
def promoteExported (it : Item) : Item :=
  { it with
    category := .saved
    currentPageId := none
    previousCategory := none
    lastExported := none
    exportCount := none }

/-- The post-export fate of a stored record, as claimed: exported `unsaved`
page items are promoted, `excluded` page items are deleted, editing records
of a different page are purged, everything else is untouched. -/
def fate (pageIds : List String) (cur : String) (it : Item) : Option Item :=
  if it.category = .unsaved ∧ it.id ∈ pageIds then some (promoteExported it)
  else if it.category = .excluded ∧ it.id ∈ pageIds then none
  else if (it.category = .unsaved ∨ it.category = .excluded) ∧
      strTruthy it.currentPageId ∧ it.currentPageId ≠ some cur then none
  else some it

/-- The record `handleEntityPermanentlyExclude` writes for a previously
unknown id. -/
def permExcludedFreshRecord : Item :=
  { id := "1"
    name := ""
    category := .permanentlyExcluded
    currentPageId := none
    previousCategory := none
    lastExported := none
    exportCount := none }

/-- A store holding one `permanentlyExcluded` record. -/
def pexRecord : Item :=
  { id := "9"
    name := "x"
    category := .permanentlyExcluded
    currentPageId := none
    previousCategory := none
    lastExported := none
    exportCount := none }

/-- A store holding only `pexRecord`. -/
def pexStore : Store := [("9", pexRecord)]

/-- A download-history CSV whose two data rows share `(boothID, filename)`
`("123", "x.zip")` but differ in timestamp (and URL). -/
def dupPairCSV : String :=
  "URL,timestamp,boothID,title,fileName,free,registered\nhttps://example.test/a,2024-01-01T00:00:00Z,123,Title,x.zip,false,false\nhttps://example.test/b,2024-01-02T00:00:00Z,123,Title,x.zip,false,false"

/-- A sample freshly excluded record (used to instantiate the shape
invariant). -/
def excludedSampleRecord : Item :=
  { id := "1"
    name := ""
    category := .excluded
    currentPageId := some "p"
    previousCategory := some .unsaved
    lastExported := none
    exportCount := none }

/-- A sample `unsaved` record belonging to page `p`. -/
def unsavedSampleRecord : Item :=
  { id := "1"
    name := "n"
    category := .unsaved
    currentPageId := some "p"
    previousCategory := none
    lastExported := none
    exportCount := none }

/-- What `unsavedSampleRecord` becomes after a successful export. -/
def promotedSampleRecord : Item :=
  { id := "1"
    name := "n"
    category := .saved
    currentPageId := none
    previousCategory := none
    lastExported := none
    exportCount := none }

/-! # Theorems

Basic lemmas about the store primitives, then one theorem per claim (with
counterexamples and witnesses where applicable). -/

/-- Writing a key makes it readable. -/
theorem getEntry_setEntry_self (s : Store) (k : String) (v : Item) :
    getEntry (setEntry s k v) k = some v := by
  induction s with
  | nil => simp [setEntry, getEntry]
  | cons e rest ih =>
    obtain ⟨k₀, v₀⟩ := e
    by_cases h : k₀ = k
    · subst h
      simp [setEntry, getEntry]
    · simp [setEntry, getEntry, h, ih]

/-- Writing a key leaves other keys untouched. -/
theorem getEntry_setEntry_ne (s : Store) (k k' : String) (v : Item)
    (h : k ≠ k') : getEntry (setEntry s k v) k' = getEntry s k' := by
  induction s with
  | nil => simp [setEntry, getEntry, h]
  | cons e rest ih =>
    obtain ⟨k₀, v₀⟩ := e
    by_cases h₀ : k₀ = k
    · subst h₀
      simp [setEntry, getEntry, h]
    · simp [setEntry, getEntry, h₀, ih]

/-- Deleting a key removes it. -/
theorem getEntry_delEntry_self (s : Store) (k : String) :
    getEntry (delEntry s k) k = none := by
  induction s with
  | nil => simp [delEntry, getEntry]
  | cons e rest ih =>
    obtain ⟨k₀, v₀⟩ := e
    by_cases h₀ : k₀ = k
    · subst h₀
      simp [delEntry, getEntry, ih]
    · simp [delEntry, getEntry, h₀, ih]

/-- Deleting a key leaves other keys untouched. -/
theorem getEntry_delEntry_ne (s : Store) (k k' : String) (h : k ≠ k') :
    getEntry (delEntry s k) k' = getEntry s k' := by
  induction s with
  | nil => simp [delEntry, getEntry]
  | cons e rest ih =>
    obtain ⟨k₀, v₀⟩ := e
    by_cases h₀ : k₀ = k
    · subst h₀
      simp [delEntry, getEntry, h, ih]
    · simp [delEntry, getEntry, h₀, ih]

/-- Every entry after a write is the written pair or an old entry. -/
theorem mem_setEntry (s : Store) (k : String) (v : Item) (e : String × Item)
    (he : e ∈ setEntry s k v) : e = (k, v) ∨ e ∈ s := by
  induction s with
  | nil => simpa [setEntry] using he
  | cons e₀ rest ih =>
    obtain ⟨k₀, v₀⟩ := e₀
    by_cases h₀ : k₀ = k
    · subst h₀
      simp only [setEntry, if_true, eq_self_iff_true, List.mem_cons] at he
      rcases he with h | h
      · exact Or.inl h
      · exact Or.inr (List.mem_cons_of_mem _ h)
    · simp only [setEntry, if_neg h₀, List.mem_cons] at he
      rcases he with h | h
      · exact Or.inr (h ▸ List.mem_cons_self _ _)
      · rcases ih h with h' | h'
        · exact Or.inl h'
        · exact Or.inr (List.mem_cons_of_mem _ h')

/-- Deletion only removes entries. -/
theorem mem_delEntry (s : Store) (k : String) (e : String × Item)
    (he : e ∈ delEntry s k) : e ∈ s := by
  induction s with
  | nil => simpa [delEntry] using he
  | cons e₀ rest ih =>
    obtain ⟨k₀, v₀⟩ := e₀
    by_cases h₀ : k₀ = k
    · subst h₀
      exact List.mem_cons_of_mem _ (ih (by simpa [delEntry] using he))
    · simp only [delEntry, if_neg h₀, List.mem_cons] at he
      rcases he with h | h
      · exact h ▸ List.mem_cons_self _ _
      · exact List.mem_cons_of_mem _ (ih h)

/-- Reading the key just updated. -/
theorem getEntry_updateItem_self (s : Store) (id : String) (u : UpdateData) :
    getEntry (updateItem s id u) id =
      some (match getEntry s id with
            | none => updateFresh id u
            | some ex => updateExisting id ex u) := by
  unfold updateItem
  cases h : getEntry s id <;> simp [getEntry_setEntry_self]

/-- An update leaves other keys untouched. -/
theorem getEntry_updateItem_ne (s : Store) (id : String) (u : UpdateData)
    (id' : String) (h : id ≠ id') :
    getEntry (updateItem s id u) id' = getEntry s id' := by
  unfold updateItem
  cases getEntry s id <;> exact getEntry_setEntry_ne _ _ _ _ h

/-- A successful read means membership. -/
theorem mem_of_getEntry_eq_some (s : Store) (id : String) (it : Item)
    (h : getEntry s id = some it) : (id, it) ∈ s := by
  induction s with
  | nil => simp [getEntry] at h
  | cons e rest ih =>
    obtain ⟨k₀, v₀⟩ := e
    by_cases h₀ : k₀ = id
    · subst h₀
      simp only [getEntry, if_true, eq_self_iff_true, Option.some.injEq] at h
      exact h ▸ List.mem_cons_self _ _
    · simp only [getEntry, if_neg h₀] at h
      exact List.mem_cons_of_mem _ (ih h)

/-- With unique keys, membership means a successful read. -/
theorem getEntry_eq_some_of_mem (s : Store) (id : String) (it : Item)
    (hnd : (s.map Prod.fst).Nodup) (h : (id, it) ∈ s) :
    getEntry s id = some it := by
  induction s with
  | nil => simp at h
  | cons e rest ih =>
    obtain ⟨k₀, v₀⟩ := e
    simp only [List.map_cons, List.nodup_cons] at hnd
    rcases List.mem_cons.mp h with h' | h'
    · injection h' with h₁ h₂
      subst h₁
      subst h₂
      simp [getEntry]
    · have hne : k₀ ≠ id := by
        intro hk
        subst hk
        exact hnd.1 (List.mem_map.mpr ⟨(k₀, it), h', rfl⟩)
      simp only [getEntry, if_neg hne]
      exact ih hnd.2 h'

/-- The fresh record written by an upsert satisfies the shape invariant. -/
theorem shapeOK_updateFresh (id : String) (u : UpdateData) :
    shapeOK (updateFresh id u) := by
  unfold shapeOK updateFresh
  constructor
  · intro h
    simp only at h ⊢
    split at h
    · rename_i hc
      exact hc.2
    · simp at h
  · intro h
    simp only at h ⊢
    split at h
    · rename_i hc
      exact hc.1
    · simp at h

/-- The rewritten record of an upsert satisfies the shape invariant. -/
theorem shapeOK_updateExisting (id : String) (ex : Item) (u : UpdateData) :
    shapeOK (updateExisting id ex u) := by
  unfold shapeOK updateExisting
  constructor
  · intro h
    simp only at h ⊢
    split at h
    · rename_i hc
      exact hc
    · simp at h
  · intro h
    simp only at h ⊢
    split at h
    · rename_i hc
      exact hc
    · simp at h

/-- The record written by `saveItem` satisfies the shape invariant. -/
theorem shapeOK_saveRecord (id : String) (d : SaveData) :
    shapeOK (saveRecord id d) := by
  unfold shapeOK saveRecord
  constructor
  · intro h
    simp only at h ⊢
    split at h
    · rename_i hc
      exact hc.2
    · simp at h
  · intro h
    simp only at h ⊢
    split at h
    · rename_i hc
      exact hc.1
    · simp at h

/-- A fold preserves any store invariant its step preserves. -/
theorem foldl_preserve {α : Type} (P : Store → Prop) (f : Store → α → Store)
    (hf : ∀ st a, P st → P (f st a)) :
    ∀ (l : List α) (s : Store), P s → P (l.foldl f s) := by
  intro l
  induction l with
  | nil => intro s h; simpa using h
  | cons a rest ih =>
    intro s h
    simpa using ih (f s a) (hf s a h)

/-- Writing a shape-correct record preserves the all-records invariant. -/
theorem allShape_setEntry (s : Store) (k : String) (v : Item)
    (hs : ∀ e ∈ s, shapeOK e.2) (hv : shapeOK v) :
    ∀ e ∈ setEntry s k v, shapeOK e.2 := by
  intro e he
  rcases mem_setEntry s k v e he with h | h
  · rw [h]
    exact hv
  · exact hs e h

/-- An upsert preserves the all-records invariant. -/
theorem allShape_updateItem (s : Store) (id : String) (u : UpdateData)
    (hs : ∀ e ∈ s, shapeOK e.2) :
    ∀ e ∈ updateItem s id u, shapeOK e.2 := by
  unfold updateItem
  cases getEntry s id with
  | none => exact allShape_setEntry s id _ hs (shapeOK_updateFresh id u)
  | some ex => exact allShape_setEntry s id _ hs (shapeOK_updateExisting id ex u)

/-- A delete preserves the all-records invariant. -/
theorem allShape_deleteItem (s : Store) (id : String)
    (hs : ∀ e ∈ s, shapeOK e.2) :
    ∀ e ∈ deleteItem s id, shapeOK e.2 := by
  intro e he
  exact hs e (mem_delEntry s id e he)

/-- The post-export persistence step preserves the all-records invariant. -/
theorem allShape_processPostExport (s : Store) (newItems excludedItems : List Item)
    (cur ts : String) (hs : ∀ e ∈ s, shapeOK e.2) :
    ∀ e ∈ processPostExportActions s newItems excludedItems cur ts, shapeOK e.2 := by
  unfold processPostExportActions
  have h₁ := foldl_preserve (fun st => ∀ e ∈ st, shapeOK e.2)
    (fun st it => updateItem st it.id (postExportUpdateData ts it.exportCount))
    (fun st it h => allShape_updateItem st it.id _ h) newItems s hs
  have h₂ := foldl_preserve (fun st => ∀ e ∈ st, shapeOK e.2)
    (fun st it => deleteItem st it.id)
    (fun st it h => allShape_deleteItem st it.id h) excludedItems _ h₁
  intro e he
  refine foldl_preserve (fun st => ∀ e ∈ st, shapeOK e.2) _ ?_ _ _ h₂ e he
  intro st a h
  split
  · exact allShape_deleteItem st a.1 h
  · exact h

/-- Every lifecycle operation preserves the all-records invariant. -/
theorem allShape_applyOp (s : Store) (op : Op) (hs : ∀ e ∈ s, shapeOK e.2) :
    ∀ e ∈ applyOp s op, shapeOK e.2 := by
  cases op with
  | save id d => exact allShape_setEntry s id _ hs (shapeOK_saveRecord id d)
  | update id u => exact allShape_updateItem s id u hs
  | del id => exact allShape_deleteItem s id hs
  | exclude id c p => exact allShape_updateItem s id _ hs
  | restore id c p => exact allShape_updateItem s id _ hs
  | permanentlyExclude id => exact allShape_updateItem s id _ hs
  | exportRun cur scan ok ts =>
    cases cur with
    | none => exact hs
    | some c =>
      simp only [applyOp, exportSavedAndNewItems]
      split
      · exact hs
      · split
        · exact hs
        · exact allShape_processPostExport s _ _ c ts hs

/-- C1: after any sequence of lifecycle-store operations, every stored item
record's optional fields obey the write path: `currentPageId` occurs only on
`unsaved`/`excluded` records and `previousCategory` only on `excluded`
records (categories are the four-valued enum by construction).  This is the
provable part of the claimed invariant; the claimed "iff" directions fail
(see the counterexample). -/
theorem C1_theorem : ∀ (ops : List Op) (e : String × Item),
    e ∈ runOps ops → shapeOK e.2 := by
  intro ops
  exact foldl_preserve (fun st => ∀ e ∈ st, shapeOK e.2) applyOp
    allShape_applyOp ops [] (by simp)

/-- C1 witness: the invariant at a concrete run (a single exclude). -/
theorem C1_theorem_witness : shapeOK excludedSampleRecord :=
  C1_theorem [Op.exclude "1" Cat.unsaved (some "p")]
    ("1", excludedSampleRecord) (by decide)

/-- C1 counterexample: permanently excluding an id yields a
`permanentlyExcluded` record with no `previousCategory` (the
`previousCategory` passed by the UI is discarded because `updateItem` keeps
it only for category `excluded`), refuting the claimed
"`previousCategory` present iff category ∈ excluded, permanentlyExcluded". -/
theorem C1_counterexample :
    runOps [Op.permanentlyExclude "1"] = [("1", permExcludedFreshRecord)] ∧
      permExcludedFreshRecord.category = Cat.permanentlyExcluded ∧
      permExcludedFreshRecord.previousCategory = none := by
  refine ⟨by decide, rfl, rfl⟩

/-- C2 (amended): `getItemsForCurrentPage(pageId)` returns exactly the
`saved` entries together with the `unsaved`/`excluded` entries whose
`currentPageId` equals `pageId`.  `permanentlyExcluded` entries are *not*
included (the claimed union wrongly adds them; see the counterexample). -/
theorem C2_theorem : ∀ (s : Store) (pageId : String) (e : String × Item),
    e ∈ getItemsForCurrentPage s pageId ↔
      e ∈ s ∧ (e.2.category = Cat.saved ∨
        ((e.2.category = Cat.unsaved ∨ e.2.category = Cat.excluded) ∧
          e.2.currentPageId = some pageId)) := by
  intro s pageId e
  simp [getItemsForCurrentPage, List.mem_filter]

/-- C2 counterexample: a stored `permanentlyExcluded` entry is absent from
the result of `getItemsForCurrentPage`, refuting the claimed inclusion of
all `permanentlyExcluded` entries. -/
theorem C2_counterexample :
    ("9", pexRecord) ∈ pexStore ∧
      pexRecord.category = Cat.permanentlyExcluded ∧
      getItemsForCurrentPage pexStore "p" = [] := by
  refine ⟨by decide, rfl, by decide⟩

/-- C3 (amended): the post-export update of an exported item passes
`lastExported` and an incremented `exportCount` to `updateItem`, but the
minimal-shape write discards them: the stored record afterwards is exactly
`(id, old name, saved)` with no `currentPageId`, no `previousCategory`, and
*no export metadata*. -/
theorem C3_theorem : ∀ (s : Store) (id : String) (it : Item) (ts : String)
    (n : Option Nat),
    getEntry s id = some it →
    getEntry (updateItem s id (postExportUpdateData ts n)) id =
      some { id := id
             name := it.name
             category := Cat.saved
             currentPageId := none
             previousCategory := none
             lastExported := none
             exportCount := none } := by
  intro s id it ts n h
  rw [getEntry_updateItem_self, h]
  simp [updateExisting, postExportUpdateData]

/-- C3 witness: the amended statement at a concrete store. -/
theorem C3_theorem_witness :
    getEntry (updateItem [("1", unsavedSampleRecord)] "1"
        (postExportUpdateData "2024-06-01T00:00:00Z" none)) "1" =
      some promotedSampleRecord :=
  C3_theorem [("1", unsavedSampleRecord)] "1" unsavedSampleRecord
    "2024-06-01T00:00:00Z" none (by decide)

/-- C3 counterexample: a full post-export run over one exported `unsaved`
item leaves a record whose `lastExported` and `exportCount` are absent,
refuting "every exported item's stored record carries the export
metadata". -/
theorem C3_counterexample :
    getEntry (processPostExportActions [("1", unsavedSampleRecord)]
        [unsavedSampleRecord] [] "p" "2024-06-01T00:00:00Z") "1" =
      some promotedSampleRecord ∧
      promotedSampleRecord.lastExported = none ∧
      promotedSampleRecord.exportCount = none := by
  refine ⟨by decide, rfl, rfl⟩

/-- C5: with an empty eligible set (`saved` ∪ `unsaved` over the page's
items) the export returns failure and leaves the store untouched, and a
failed clipboard copy likewise returns failure and leaves the store
untouched. -/
theorem C5_theorem : ∀ (s : Store) (cur : String) (scanned : List String)
    (ts : String) (copyOk : Bool),
    (exportEligible s cur scanned = [] →
      exportSavedAndNewItems s (some cur) scanned copyOk ts =
        ({ success := false, itemCount := 0 }, s)) ∧
    (copyOk = false →
      exportSavedAndNewItems s (some cur) scanned copyOk ts =
        ({ success := false, itemCount := 0 }, s)) := by
  intro s cur scanned ts copyOk
  constructor
  · intro h
    simp [exportSavedAndNewItems, h]
  · intro h
    subst h
    simp only [exportSavedAndNewItems]
    split
    · rfl
    · simp

/-- C5 witness: both hypotheses at concrete inputs. -/
theorem C5_theorem_witness :
    exportSavedAndNewItems [] (some "p") [] true "t" =
        ({ success := false, itemCount := 0 }, []) ∧
      exportSavedAndNewItems [("1", unsavedSampleRecord)] (some "p") [] false "t" =
        ({ success := false, itemCount := 0 }, [("1", unsavedSampleRecord)]) :=
  ⟨(C5_theorem [] "p" [] "t" true).1 (by decide),
    (C5_theorem [("1", unsavedSampleRecord)] "p" [] "t" false).2 rfl⟩

/-- C6: excluding a stored `unsaved` record with `currentPageId = P` and
then restoring it via its restore button (whose target is the recorded
`previousCategory`) on the same page yields an `unsaved` record with
`currentPageId = P` and the same name. -/
theorem C6_theorem : ∀ (s : Store) (id P : String) (it : Item),
    getEntry s id = some it →
    it.category = Cat.unsaved →
    it.currentPageId = some P →
    (getEntry (excludeThenRestore s id it.category (some P)) id).map
        (fun j => (j.category, j.currentPageId, j.name)) =
      some (Cat.unsaved, some P, it.name) := by
  intro s id P it h hcat hpage
  simp only [excludeThenRestore, handleEntityExclude, handleEntityRestore,
    restoreOriginalCategory, updateItem, h, getEntry_setEntry_self]
  simp [updateExisting, hcat]

/-- C6 witness: the round trip at a concrete store. -/
theorem C6_theorem_witness :
    (getEntry (excludeThenRestore [("1", unsavedSampleRecord)] "1"
        unsavedSampleRecord.category (some "p")) "1").map
        (fun j => (j.category, j.currentPageId, j.name)) =
      some (Cat.unsaved, some "p", unsavedSampleRecord.name) :=
  C6_theorem [("1", unsavedSampleRecord)] "1" "p" unsavedSampleRecord
    (by decide) rfl rfl

/-- A fold of key-local steps leaves unrelated keys untouched. -/
theorem foldl_getEntry_frame {α : Type} (f : Store → α → Store)
    (key : α → String)
    (hf : ∀ (st : Store) (a : α) (id : String),
      key a ≠ id → getEntry (f st a) id = getEntry st id)
    (l : List α) (st : Store) (id : String) (h : ∀ a ∈ l, key a ≠ id) :
    getEntry (l.foldl f st) id = getEntry st id := by
  induction l generalizing st with
  | nil => simp
  | cons a rest ih =>
    simp only [List.foldl_cons]
    rw [ih (f st a) (fun b hb => h b (List.mem_cons_of_mem _ hb)),
      hf st a id (h a (List.mem_cons_self _ _))]

/-- One import step leaves other ids untouched. -/
theorem getEntry_importStep_ne (mode : JsonMergeMode) (st : Store)
    (p : String × String) (id : String) (h : p.1 ≠ id) :
    getEntry (importStep mode st p) id = getEntry st id := by
  unfold importStep
  cases getEntry st p.1 with
  | none => exact getEntry_setEntry_ne _ _ _ _ h
  | some ex =>
    cases mode with
    | skip => rfl
    | replace => exact getEntry_setEntry_ne _ _ _ _ h

/-- One import step at its own id. -/
theorem getEntry_importStep_self (mode : JsonMergeMode) (st : Store)
    (p : String × String) :
    getEntry (importStep mode st p) p.1 =
      match getEntry st p.1, mode with
      | none, _ => some (freshImportItem p.1 p.2)
      | some ex, .replace => some { ex with name := p.2 }
      | some ex, .skip => some ex := by
  unfold importStep
  cases h : getEntry st p.1 with
  | none => simp [getEntry_setEntry_self]
  | some ex =>
    cases mode with
    | skip => simp [h]
    | replace => simp [getEntry_setEntry_self]

/-- C10: JSON item-list import semantics, per imported id (imported ids
assumed pairwise distinct).  A not-yet-stored id is created with exactly
`(id, name, saved)` — no `currentPageId`, `previousCategory` or export
metadata; in replace mode an existing record gets only its `name`
overwritten; in skip mode an existing record is untouched; ids not imported
are untouched. -/
theorem C10_theorem : ∀ (st : Store) (imported : List (String × String))
    (mode : JsonMergeMode),
    (imported.map Prod.fst).Nodup →
    (∀ id nm, (id, nm) ∈ imported →
      getEntry (handleImportItems st imported mode) id =
        match getEntry st id, mode with
        | none, _ => some (freshImportItem id nm)
        | some ex, .replace => some { ex with name := nm }
        | some ex, .skip => some ex) ∧
    (∀ id, id ∉ imported.map Prod.fst →
      getEntry (handleImportItems st imported mode) id = getEntry st id) := by
  intro st imported mode hnd
  constructor
  · intro id nm hmem
    induction imported generalizing st with
    | nil => simp at hmem
    | cons p rest ih =>
      simp only [List.map_cons, List.nodup_cons] at hnd
      unfold handleImportItems
      simp only [List.foldl_cons]
      rcases List.mem_cons.mp hmem with h | h
      · have hp : p = (id, nm) := h.symm
        subst hp
        have hrest : ∀ a ∈ rest, Prod.fst a ≠ id := by
          intro a ha hq
          exact hnd.1 (by rw [← hq]; exact List.mem_map.mpr ⟨a, ha, rfl⟩)
        rw [foldl_getEntry_frame (importStep mode) Prod.fst
          (getEntry_importStep_ne mode) rest _ id hrest]
        exact getEntry_importStep_self mode st (id, nm)
      · have hp : p.1 ≠ id := by
          intro hq
          exact hnd.1 (by rw [hq]; exact List.mem_map.mpr ⟨(id, nm), h, rfl⟩)
        have hstep : getEntry (importStep mode st p) id = getEntry st id :=
          getEntry_importStep_ne mode st p id hp
        have hrec := ih (importStep mode st p) hnd.2 h
        unfold handleImportItems at hrec
        rw [hstep] at hrec
        exact hrec
  · intro id hid
    unfold handleImportItems
    refine foldl_getEntry_frame (importStep mode) Prod.fst
      (getEntry_importStep_ne mode) imported st id ?_
    intro a ha hq
    exact hid (by rw [← hq]; exact List.mem_map.mpr ⟨a, ha, rfl⟩)

/-- C10 witness: a concrete import creating one item and renaming another. -/
theorem C10_theorem_witness :
    getEntry (handleImportItems [("1", unsavedSampleRecord)]
        [("1", "NEW"), ("2", "B")] JsonMergeMode.replace) "2" =
      some (freshImportItem "2" "B") := by
  have h := (C10_theorem [("1", unsavedSampleRecord)]
    [("1", "NEW"), ("2", "B")] JsonMergeMode.replace (by decide)).1 "2" "B"
    (by decide)
  exact h.trans (by decide)

/-- C7 (spec-modelled store method): `getPermanentlyExcludedItemIds` returns
exactly the ids whose stored category is `permanentlyExcluded`, and the page
analysis new-item filter skips every such id found by the scanner. -/
theorem C7_theorem : ∀ (s : Store) (itemsToFetch : List String),
    WF s →
    (∀ id, id ∈ getPermanentlyExcludedItemIds s ↔
      ∃ it, getEntry s id = some it ∧ it.category = Cat.permanentlyExcluded) ∧
    (∀ id, id ∈ itemsToFetch →
      (∃ it, getEntry s id = some it ∧ it.category = Cat.permanentlyExcluded) →
      id ∉ handlePageAnalysisNewItems s itemsToFetch) := by
  intro s fetch hwf
  have hmain : ∀ id, id ∈ getPermanentlyExcludedItemIds s ↔
      ∃ it, getEntry s id = some it ∧ it.category = Cat.permanentlyExcluded := by
    intro id
    unfold getPermanentlyExcludedItemIds
    constructor
    · intro h
      rcases List.mem_map.mp h with ⟨e, he, hfst⟩
      rcases List.mem_filter.mp he with ⟨hmem, hp⟩
      simp only [decide_eq_true_eq] at hp
      refine ⟨e.2, ?_, hp⟩
      have hpair : (id, e.2) ∈ s := by
        have he' : e = (id, e.2) := by
          obtain ⟨a, b⟩ := e
          simp only at hfst
          rw [hfst]
        exact he' ▸ hmem
      exact getEntry_eq_some_of_mem s id e.2 hwf.1 hpair
    · rintro ⟨it, hget, hcat⟩
      exact List.mem_map.mpr ⟨(id, it),
        List.mem_filter.mpr ⟨mem_of_getEntry_eq_some s id it hget,
          by simp [hcat]⟩, rfl⟩
  refine ⟨hmain, ?_⟩
  rintro id hidf ⟨it, hget, hcat⟩ hmem
  unfold handlePageAnalysisNewItems at hmem
  rcases List.mem_filter.mp hmem with ⟨-, hp⟩
  simp only [Bool.and_eq_true, decide_eq_true_eq] at hp
  exact hp.1 ((hmain id).mpr ⟨it, hget, hcat⟩)

/-- C7 witness: a stored permanently excluded id found by the scanner is not
proposed as a new item. -/
theorem C7_theorem_witness :
    "9" ∉ handlePageAnalysisNewItems pexStore ["9", "7"] :=
  (C7_theorem pexStore ["9", "7"] (by decide)).2 "9" (by decide)
    ⟨pexRecord, by decide, rfl⟩

/-- C8 (amended): the CSV history import performs no
`(boothID, filename)` de-duplication at all — replace mode stores the parsed
rows as-is, merge mode appends exactly those parsed rows whose URL does not
occur among the pre-existing entries' URLs (the URL set is not updated
during the loop, so parsed rows are never checked against each other). -/
theorem C8_theorem : ∀ (parsed history : List HistEntry),
    performImport parsed history CsvMergeMode.replace = parsed ∧
    performImport parsed history CsvMergeMode.merge =
      history ++ parsed.filter
        (fun it => decide (it.url ∉ history.map (fun e => e.url))) := by
  intro parsed history
  refine ⟨rfl, ?_⟩
  simp only [performImport]
  have key : ∀ (l acc : List HistEntry),
      l.foldl (fun h it =>
        if it.url ∈ history.map (fun e => e.url) then h else h ++ [it]) acc =
        acc ++ l.filter
          (fun it => decide (it.url ∉ history.map (fun e => e.url))) := by
    intro l
    induction l with
    | nil => intro acc; simp
    | cons a rest ih =>
      intro acc
      by_cases ha : a.url ∈ history.map (fun e => e.url)
      · rw [List.foldl_cons, if_pos ha, ih,
          List.filter_cons_of_neg (by simp [ha])]
      · rw [List.foldl_cons, if_neg ha, ih,
          List.filter_cons_of_pos (by simp [ha]), List.append_assoc,
          List.singleton_append]
  exact key parsed history

/-- C8 counterexample: a CSV with two rows sharing
`(boothID, filename) = ("123", "x.zip")` and different timestamps merges
into a history with *two* entries for that pair, refuting "exactly one
retained entry, last one processed wins". -/
theorem C8_counterexample :
    ((parseCSV dupPairCSV).getD []).map (fun e => (e.boothID, e.filename)) =
        [("123", "x.zip"), ("123", "x.zip")] ∧
      ((parseCSV dupPairCSV).getD []).map (fun e => e.timestamp) =
        ["2024-01-01T00:00:00Z", "2024-01-02T00:00:00Z"] ∧
      (performImport ((parseCSV dupPairCSV).getD []) [] CsvMergeMode.merge).countP
        (fun e => e.boothID == "123" && e.filename == "x.zip") = 2 := by
  refine ⟨by decide, by decide, by decide⟩

/-- A deletion yields a sublist of the store. -/
theorem delEntry_sublist (s : Store) (k : String) : (delEntry s k).Sublist s := by
  induction s with
  | nil => simp [delEntry]
  | cons e rest ih =>
    obtain ⟨k₀, v₀⟩ := e
    by_cases h₀ : k₀ = k
    · simp only [delEntry, if_pos h₀]
      exact ih.cons _
    · simp only [delEntry, if_neg h₀]
      exact ih.cons₂ _

/-- A write preserves key uniqueness. -/
theorem keysNodup_setEntry (s : Store) (k : String) (v : Item)
    (h : (s.map Prod.fst).Nodup) : ((setEntry s k v).map Prod.fst).Nodup := by
  induction s with
  | nil => simp [setEntry]
  | cons e rest ih =>
    obtain ⟨k₀, v₀⟩ := e
    simp only [List.map_cons, List.nodup_cons] at h
    by_cases h₀ : k₀ = k
    · subst h₀
      simp only [setEntry, if_true, eq_self_iff_true, List.map_cons,
        List.nodup_cons]
      exact h
    · simp only [setEntry, if_neg h₀, List.map_cons, List.nodup_cons]
      refine ⟨?_, ih h.2⟩
      intro hmem
      rcases List.mem_map.mp hmem with ⟨e', he', hfst⟩
      rcases mem_setEntry rest k v e' he' with h' | h'
      · exact h₀ (by rw [← hfst, h'])
      · exact h.1 (List.mem_map.mpr ⟨e', h', hfst⟩)

/-- A delete preserves key uniqueness. -/
theorem keysNodup_delEntry (s : Store) (k : String)
    (h : (s.map Prod.fst).Nodup) : ((delEntry s k).map Prod.fst).Nodup :=
  ((delEntry_sublist s k).map Prod.fst).nodup h

/-- An upsert preserves key uniqueness. -/
theorem keysNodup_updateItem (s : Store) (id : String) (u : UpdateData)
    (h : (s.map Prod.fst).Nodup) :
    ((updateItem s id u).map Prod.fst).Nodup := by
  unfold updateItem
  cases getEntry s id with
  | none => exact keysNodup_setEntry s id _ h
  | some ex => exact keysNodup_setEntry s id _ h

/-- The record written by the step-1 promotion of the post-export pass. -/
theorem getEntry_postExport_update (s : Store) (id : String) (it : Item)
    (ts : String) (n : Option Nat) (h : getEntry s id = some it) :
    getEntry (updateItem s id (postExportUpdateData ts n)) id =
      some { id := id
             name := it.name
             category := Cat.saved
             currentPageId := none
             previousCategory := none
             lastExported := none
             exportCount := none } := by
  rw [getEntry_updateItem_self, h]
  simp [updateExisting, postExportUpdateData]

/-- In a list of records with pairwise distinct ids, `find?` by id returns
the member itself. -/
theorem find?_id_of_mem (l : List Item) (hnd : (l.map Item.id).Nodup)
    (it : Item) (h : it ∈ l) :
    l.find? (fun j => j.id == it.id) = some it := by
  induction l with
  | nil => simp at h
  | cons it₀ rest ih =>
    simp only [List.map_cons, List.nodup_cons] at hnd
    rcases List.mem_cons.mp h with h' | h'
    · subst h'
      simp [List.find?_cons_of_pos]
    · have hne : it₀.id ≠ it.id := by
        intro hq
        exact hnd.1 (by rw [hq]; exact List.mem_map.mpr ⟨it, h', rfl⟩)
      rw [List.find?_cons_of_neg _ (by simp [hne])]
      exact ih hnd.2 h'

/-- Characterisation of the step-1 promotion fold: a record in the promoted
list is rewritten to the promoted shape, everything else is untouched. -/
theorem step1_fold_char (ts : String) (l : List Item) (s : Store)
    (hnd : (l.map Item.id).Nodup)
    (hself : ∀ it ∈ l, getEntry s it.id = some it) :
    ∀ id, getEntry (l.foldl
        (fun st it => updateItem st it.id (postExportUpdateData ts it.exportCount)) s) id =
      match l.find? (fun j => j.id == id) with
      | some j => some { id := id
                         name := j.name
                         category := Cat.saved
                         currentPageId := none
                         previousCategory := none
                         lastExported := none
                         exportCount := none }
      | none => getEntry s id := by
  induction l generalizing s with
  | nil => intro id; simp
  | cons it₀ rest ih =>
    intro id
    simp only [List.map_cons, List.nodup_cons] at hnd
    have h₀ : getEntry s it₀.id = some it₀ := hself it₀ (List.mem_cons_self _ _)
    have hkeep : ∀ it' ∈ rest,
        getEntry (updateItem s it₀.id (postExportUpdateData ts it₀.exportCount)) it'.id =
          some it' := by
      intro it' h'
      have hne : it₀.id ≠ it'.id := by
        intro hq
        exact hnd.1 (by rw [hq]; exact List.mem_map.mpr ⟨it', h', rfl⟩)
      rw [getEntry_updateItem_ne _ _ _ _ hne]
      exact hself it' (List.mem_cons_of_mem _ h')
    simp only [List.foldl_cons]
    rw [ih _ hnd.2 hkeep id]
    by_cases hid : it₀.id = id
    · have hnone : rest.find? (fun j => j.id == id) = none := by
        rw [List.find?_eq_none]
        intro j hj
        have : it₀.id ≠ j.id := by
          intro hq
          exact hnd.1 (by rw [hq]; exact List.mem_map.mpr ⟨j, hj, rfl⟩)
        simp [hid ▸ this.symm]
      rw [hnone, List.find?_cons_of_pos _ (by simp [hid])]
      rw [← hid]
      exact getEntry_postExport_update s it₀.id it₀ ts it₀.exportCount h₀
    · rw [List.find?_cons_of_neg _ (by simp [hid])]
      cases hf : rest.find? (fun j => j.id == id) with
      | some j => rfl
      | none =>
        exact getEntry_updateItem_ne _ _ _ _ hid

/-- Characterisation of the step-2 deletion fold. -/
theorem step2_fold_char (l : List Item) (s : Store) :
    ∀ id, getEntry (l.foldl (fun st it => deleteItem st it.id) s) id =
      if id ∈ l.map Item.id then none else getEntry s id := by
  induction l generalizing s with
  | nil => intro id; simp
  | cons it₀ rest ih =>
    intro id
    simp only [List.foldl_cons]
    rw [ih]
    by_cases hmemr : id ∈ rest.map Item.id
    · simp [hmemr]
    · by_cases hid : it₀.id = id
      · simp only [if_neg hmemr, List.map_cons, List.mem_cons, hid,
          true_or, if_true, eq_self_iff_true]
        unfold deleteItem
        exact getEntry_delEntry_self s id
      · have : id ∉ (it₀ :: rest).map Item.id := by
          simp only [List.map_cons, List.mem_cons]
          rintro (h | h)
          · exact hid h.symm
          · exact hmemr h
        rw [if_neg hmemr, if_neg this]
        exact getEntry_delEntry_ne _ _ _ hid

/-- Characterisation of the step-3 conditional-deletion fold over an
arbitrary entry list. -/
theorem step3_fold_char (cur : String) (l : List (String × Item)) (st : Store) :
    ∀ id, getEntry (l.foldl
        (fun st e => if stalePredicate cur e.2 then deleteItem st e.1 else st) st) id =
      if ∃ e ∈ l, e.1 = id ∧ stalePredicate cur e.2 then none
      else getEntry st id := by
  induction l generalizing st with
  | nil => intro id; simp
  | cons e₀ rest ih =>
    intro id
    simp only [List.foldl_cons]
    rw [ih]
    by_cases hr : ∃ e ∈ rest, e.1 = id ∧ stalePredicate cur e.2
    · rw [if_pos hr, if_pos (by rcases hr with ⟨e, he, hp⟩; exact ⟨e, List.mem_cons_of_mem _ he, hp⟩)]
    · rw [if_neg hr]
      by_cases h₀ : e₀.1 = id ∧ stalePredicate cur e₀.2
      · have hex : ∃ e ∈ e₀ :: rest, e.1 = id ∧ stalePredicate cur e.2 :=
          ⟨e₀, List.mem_cons_self _ _, h₀⟩
        rw [if_pos h₀.2, if_pos hex]
        unfold deleteItem
        rw [h₀.1]
        exact getEntry_delEntry_self st id
      · have hno : ¬∃ e ∈ e₀ :: rest, e.1 = id ∧ stalePredicate cur e.2 := by
          rintro ⟨e, he, hp⟩
          rcases List.mem_cons.mp he with h' | h'
          · exact h₀ (h' ▸ hp)
          · exact hr ⟨e, h', hp⟩
        rw [if_neg hno]
        by_cases hst : stalePredicate cur e₀.2
        · rw [if_pos hst]
          have hne : e₀.1 ≠ id := fun hq => h₀ ⟨hq, hst⟩
          exact getEntry_delEntry_ne _ _ _ hne
        · rw [if_neg hst]

/-- Full read-level characterisation of `processPostExportActions`: promoted
ids read as the promoted shape, deleted excluded ids read as absent, stale
survivors are purged, everything else is untouched. -/
theorem getEntry_processPostExport (s : Store) (NI EX : List Item)
    (cur ts id : String)
    (hnd : (NI.map Item.id).Nodup)
    (hself : ∀ j ∈ NI, getEntry s j.id = some j)
    (hnds : (s.map Prod.fst).Nodup) :
    getEntry (processPostExportActions s NI EX cur ts) id =
      match (if id ∈ EX.map Item.id then none
             else
               match NI.find? (fun j => j.id == id) with
               | some j => some { id := id
                                  name := j.name
                                  category := Cat.saved
                                  currentPageId := none
                                  previousCategory := none
                                  lastExported := none
                                  exportCount := none }
               | none => getEntry s id) with
      | some j => if stalePredicate cur j then none else some j
      | none => none := by
  simp only [processPostExportActions]
  set s₁ := List.foldl
    (fun st j => updateItem st j.id (postExportUpdateData ts j.exportCount))
    s NI with hs₁
  set s₂ := List.foldl (fun st j => deleteItem st j.id) s₁ EX with hs₂
  have h1 : getEntry s₁ id =
      match NI.find? (fun j => j.id == id) with
      | some j => some { id := id
                         name := j.name
                         category := Cat.saved
                         currentPageId := none
                         previousCategory := none
                         lastExported := none
                         exportCount := none }
      | none => getEntry s id := by
    rw [hs₁]
    exact step1_fold_char ts NI s hnd hself id
  have h2 : getEntry s₂ id = if id ∈ EX.map Item.id then none else getEntry s₁ id := by
    rw [hs₂]
    exact step2_fold_char EX s₁ id
  have hnd1 : (s₁.map Prod.fst).Nodup := by
    rw [hs₁]
    exact foldl_preserve (fun st => (st.map Prod.fst).Nodup) _
      (fun st a h => keysNodup_updateItem st a.id _ h) NI s hnds
  have hnd2 : (s₂.map Prod.fst).Nodup := by
    rw [hs₂]
    exact foldl_preserve (fun st => (st.map Prod.fst).Nodup) _
      (fun st a h => keysNodup_delEntry st a.id h) EX s₁ hnd1
  rw [step3_fold_char cur s₂ s₂ id, ← h1, ← h2]
  cases hv : getEntry s₂ id with
  | none =>
    simp only [ite_self]
  | some j =>
    by_cases hst : stalePredicate cur j
    · have hex : ∃ e ∈ s₂, e.1 = id ∧ stalePredicate cur e.2 :=
        ⟨(id, j), mem_of_getEntry_eq_some s₂ id j hv, rfl, hst⟩
      rw [if_pos hex]
      simp [hst]
    · have hno : ¬∃ e ∈ s₂, e.1 = id ∧ stalePredicate cur e.2 := by
        rintro ⟨e, he, hid, hste⟩
        have hj : getEntry s₂ id = some e.2 := by
          rw [← hid]
          refine getEntry_eq_some_of_mem s₂ e.1 e.2 hnd2 ?_
          simpa using he
        rw [hv] at hj
        injection hj with hj
        exact hst (hj ▸ hste)
      rw [if_neg hno]
      simp [hst]

/-- Every record in a category-filtered page-item list reads back as itself. -/
theorem pageFiltered_self (s : Store) (cur : String) (scanned : List String)
    (q : Item → Bool) (hnd : (s.map Prod.fst).Nodup)
    (hids : ∀ e ∈ s, e.2.id = e.1) :
    ∀ j ∈ ((pageItemsOf s cur scanned).map (·.2)).filter q,
      getEntry s j.id = some j := by
  intro j hj
  rcases List.mem_filter.mp hj with ⟨hj', -⟩
  rcases List.mem_map.mp hj' with ⟨e, he, hee⟩
  have hes : e ∈ s := (List.filter_sublist _).subset he
  have hid2 : e.2.id = e.1 := hids e hes
  rw [← hee, hid2]
  refine getEntry_eq_some_of_mem s e.1 e.2 hnd ?_
  simpa using hes

/-- Every record in a category-filtered page-item list satisfies the filter
and belongs to the page id set. -/
theorem pageFiltered_props (s : Store) (cur : String) (scanned : List String)
    (q : Item → Bool) (hids : ∀ e ∈ s, e.2.id = e.1) :
    ∀ j ∈ ((pageItemsOf s cur scanned).map (·.2)).filter q,
      q j = true ∧ j.id ∈ cur :: scanned := by
  intro j hj
  rcases List.mem_filter.mp hj with ⟨hj', hq⟩
  refine ⟨hq, ?_⟩
  rcases List.mem_map.mp hj' with ⟨e, he, hee⟩
  rcases List.mem_filter.mp he with ⟨hes, hcond⟩
  simp only [decide_eq_true_eq] at hcond
  have hid2 : e.2.id = e.1 := hids e hes
  rw [← hee, hid2]
  exact List.mem_cons.mpr hcond

/-- The ids of a category-filtered page-item list are pairwise distinct. -/
theorem pageFiltered_keysNodup (s : Store) (cur : String)
    (scanned : List String) (q : Item → Bool)
    (hnd : (s.map Prod.fst).Nodup) (hids : ∀ e ∈ s, e.2.id = e.1) :
    ((((pageItemsOf s cur scanned).map (·.2)).filter q).map Item.id).Nodup := by
  have h1 : ((pageItemsOf s cur scanned).map (·.2)).filter q =
      ((pageItemsOf s cur scanned).filter (fun e => q e.2)).map (·.2) := by
    rw [List.filter_map]
    rfl
  rw [h1, List.map_map]
  have hsub : ((pageItemsOf s cur scanned).filter (fun e => q e.2)).Sublist s :=
    (List.filter_sublist _).trans (List.filter_sublist _)
  have hcong : ∀ e ∈ (pageItemsOf s cur scanned).filter (fun e => q e.2),
      (Item.id ∘ (·.2)) e = Prod.fst e := by
    intro e he
    exact hids e (hsub.subset he)
  rw [List.map_congr_left hcong]
  exact List.Nodup.sublist (hsub.map Prod.fst) hnd

/-- Membership in a category-filtered page-item list from a stored pair. -/
theorem mem_pageFiltered (s : Store) (cur : String) (scanned : List String)
    (q : Item → Bool) (id : String) (it : Item)
    (hpair : (id, it) ∈ s) (hq : q it = true) (hpage : id ∈ cur :: scanned) :
    it ∈ ((pageItemsOf s cur scanned).map (·.2)).filter q := by
  refine List.mem_filter.mpr ⟨?_, hq⟩
  refine List.mem_map.mpr ⟨(id, it), ?_, rfl⟩
  refine List.mem_filter.mpr ⟨hpair, ?_⟩
  simpa using List.mem_cons.mp hpage

/-- The step-3 predicate, read back as a proposition. -/
theorem stalePredicate_iff (cur : String) (it : Item) :
    stalePredicate cur it = true ↔
      ((it.category = Cat.unsaved ∨ it.category = Cat.excluded) ∧
        strTruthy it.currentPageId ∧ it.currentPageId ≠ some cur) := by
  simp [stalePredicate, and_assoc]

/-- C4: when the current page id is known and the clipboard copy succeeds
(so the export reports success), the persistence step performs exactly the
claimed transitions on every stored record: exported `unsaved` page items
become `saved` and lose `currentPageId` (and `previousCategory`/metadata),
`excluded` page items are deleted, `unsaved`/`excluded` records with a set
`currentPageId` of a different page are deleted, and everything else is
untouched. -/
theorem C4_theorem : ∀ (s : Store) (cur : String) (scanned : List String)
    (ts id : String) (it : Item),
    WF s →
    getEntry s id = some it →
    (exportSavedAndNewItems s (some cur) scanned true ts).1.success = true →
    getEntry (exportSavedAndNewItems s (some cur) scanned true ts).2 id =
      fate (cur :: scanned) cur it := by
  intro s cur scanned ts id it hwf hget hsucc
  obtain ⟨hnd, hids⟩ := hwf
  have hitid : it.id = id := hids (id, it) (mem_of_getEntry_eq_some s id it hget)
  simp only [exportSavedAndNewItems] at hsucc ⊢
  by_cases hE : (exportEligible s cur scanned).isEmpty
  · rw [if_pos hE] at hsucc
    exact absurd hsucc (by simp)
  · rw [if_neg hE] at hsucc ⊢
    simp only [Bool.not_true, Bool.false_eq_true, if_false] at hsucc ⊢
    set NI := ((pageItemsOf s cur scanned).map (·.2)).filter
      (fun j => decide (j.category = Cat.unsaved)) with hNIdef
    set EX := ((pageItemsOf s cur scanned).map (·.2)).filter
      (fun j => decide (j.category = Cat.excluded)) with hEXdef
    have hselfNI : ∀ j ∈ NI, getEntry s j.id = some j :=
      pageFiltered_self s cur scanned _ hnd hids
    have hselfEX : ∀ j ∈ EX, getEntry s j.id = some j :=
      pageFiltered_self s cur scanned _ hnd hids
    have hndNI : (NI.map Item.id).Nodup :=
      pageFiltered_keysNodup s cur scanned _ hnd hids
    rw [getEntry_processPostExport s NI EX cur ts id hndNI hselfNI hnd]
    by_cases hA : it.category = Cat.unsaved ∧ id ∈ cur :: scanned
    · have hmemNI : it ∈ NI := by
        rw [hNIdef]
        exact mem_pageFiltered s cur scanned _ id it
          (mem_of_getEntry_eq_some s id it hget) (by simp [hA.1]) hA.2
      have hfind : NI.find? (fun j => j.id == id) = some it := by
        have h := find?_id_of_mem NI hndNI it hmemNI
        rw [hitid] at h
        exact h
      have hnotEX : id ∉ EX.map Item.id := by
        intro hm
        rcases List.mem_map.mp hm with ⟨j, hj, hjid⟩
        have hj' := hselfEX j hj
        rw [hjid, hget] at hj'
        injection hj' with hj'
        have hq := (pageFiltered_props s cur scanned _ hids j hj).1
        simp only [decide_eq_true_eq] at hq
        rw [← hj', hA.1] at hq
        exact Cat.noConfusion hq
      rw [if_neg hnotEX, hfind]
      have hfate : fate (cur :: scanned) cur it = some (promoteExported it) := by
        unfold fate
        rw [if_pos ⟨hA.1, by rw [hitid]; exact hA.2⟩]
      rw [hfate]
      simp [stalePredicate, promoteExported, hitid]
    · by_cases hB : it.category = Cat.excluded ∧ id ∈ cur :: scanned
      · have hmemEX : it ∈ EX := by
          rw [hEXdef]
          exact mem_pageFiltered s cur scanned _ id it
            (mem_of_getEntry_eq_some s id it hget) (by simp [hB.1]) hB.2
        have hinEX : id ∈ EX.map Item.id :=
          List.mem_map.mpr ⟨it, hmemEX, hitid⟩
        rw [if_pos hinEX]
        have hfate : fate (cur :: scanned) cur it = none := by
          unfold fate
          rw [if_neg (by rw [hitid]; rintro ⟨h₁, -⟩; exact hA ⟨h₁, hB.2⟩),
            if_pos ⟨hB.1, by rw [hitid]; exact hB.2⟩]
        rw [hfate]
      · have hfindnone : NI.find? (fun j => j.id == id) = none := by
          rw [List.find?_eq_none]
          intro j hj
          simp only [beq_iff_eq]
          intro hjid
          have hj' := hselfNI j hj
          rw [hjid, hget] at hj'
          injection hj' with hj'
          have hprops := pageFiltered_props s cur scanned _ hids j hj
          simp only [decide_eq_true_eq] at hprops
          exact hA ⟨by rw [hj']; exact hprops.1, by rw [← hjid]; exact hprops.2⟩
        have hnotEX : id ∉ EX.map Item.id := by
          intro hm
          rcases List.mem_map.mp hm with ⟨j, hj, hjid⟩
          have hj' := hselfEX j hj
          rw [hjid, hget] at hj'
          injection hj' with hj'
          have hprops := pageFiltered_props s cur scanned _ hids j hj
          simp only [decide_eq_true_eq] at hprops
          exact hB ⟨by rw [hj']; exact hprops.1, by rw [← hjid]; exact hprops.2⟩
        rw [if_neg hnotEX, hfindnone, hget]
        have hc1 : ¬(it.category = Cat.unsaved ∧ it.id ∈ cur :: scanned) := by
          rw [hitid]
          exact hA
        have hc2 : ¬(it.category = Cat.excluded ∧ it.id ∈ cur :: scanned) := by
          rw [hitid]
          exact hB
        unfold fate
        rw [if_neg hc1, if_neg hc2]
        by_cases hst : stalePredicate cur it
        · rw [if_pos ((stalePredicate_iff cur it).mp hst)]
          simp [hst]
        · rw [if_neg (fun hc => hst ((stalePredicate_iff cur it).mpr hc))]
          simp [hst]

/-- C4 witness: a concrete successful export over a store holding one
`unsaved` item of the current page. -/
theorem C4_theorem_witness :
    getEntry (exportSavedAndNewItems [("1", unsavedSampleRecord)] (some "1")
        [] true "t").2 "1" = fate ["1"] "1" unsavedSampleRecord := by
  exact C4_theorem [("1", unsavedSampleRecord)] "1" [] "t" "1"
    unsavedSampleRecord (by decide) (by decide) (by decide)

/-- `takeWhile` keeps an all-digit list whole. -/
theorem takeWhile_digits (d : List Char) (h : ∀ c ∈ d, c.isDigit) :
    d.takeWhile Char.isDigit = d := by
  induction d with
  | nil => rfl
  | cons c rest ih =>
    rw [List.takeWhile_cons_of_pos (h c (List.mem_cons_self _ _))]
    rw [ih (fun c' hc' => h c' (List.mem_cons_of_mem _ hc'))]

/-- `parseDigits` consumes a whole nonempty digit list. -/
theorem parseDigits_digits (d : List Char) (hne : d ≠ [])
    (h : ∀ c ∈ d, c.isDigit) : parseDigits d = some (d, []) := by
  unfold parseDigits
  rw [takeWhile_digits d h]
  rw [if_neg (by simpa using hne)]
  rw [List.drop_length]

/-- The unfolding equation of `scanPat` at a match. -/
theorem scanPat_match_eq (b : Bool) (s d r : List Char)
    (h : matchPat b s = some (d, r)) : scanPat b s = d :: scanPat b r := by
  rw [scanPat.eq_def]
  split
  · rename_i d' r' heq
    rw [h] at heq
    injection heq with heq
    injection heq with h₁ h₂
    rw [h₁, h₂]
  · rename_i heq
    rw [h] at heq
    exact Option.noConfusion heq

/-- The unfolding equation of `scanPat` at a non-match. -/
theorem scanPat_cons_none (b : Bool) (c : Char) (t : List Char)
    (h : matchPat b (c :: t) = none) : scanPat b (c :: t) = scanPat b t := by
  rw [scanPat.eq_def]
  split
  · rename_i d' r' heq
    rw [h] at heq
    exact Option.noConfusion heq
  · rfl

/-- `scanPat` on the empty text. -/
theorem scanPat_nil (b : Bool) : scanPat b [] = [] := by
  rw [scanPat.eq_def]
  split
  · rename_i d' r' heq
    have : matchPat b [] = none := by cases b <;> rfl
    rw [this] at heq
    exact Option.noConfusion heq
  · rfl

/-- No match can start at a character other than `h`. -/
theorem matchPat_not_h (b : Bool) (c : Char) (t : List Char) (h : c ≠ 'h') :
    matchPat b (c :: t) = none := by
  have he : eatPre httpChars (c :: t) = none := by
    unfold httpChars eatPre
    rw [if_neg (fun hh => h hh.symm)]
  cases b <;> · unfold matchPat schemeRest; rw [he]

/-- `scanPat` skips any run of non-`h` characters. -/
theorem scanPat_skip_nonH (b : Bool) (l t : List Char)
    (h : ∀ c ∈ l, c ≠ 'h') : scanPat b (l ++ t) = scanPat b t := by
  induction l with
  | nil => rw [List.nil_append]
  | cons c rest ih =>
    rw [List.cons_append,
      scanPat_cons_none b c _ (matchPat_not_h b c _ (h c (List.mem_cons_self _ _)))]
    exact ih (fun c' hc' => h c' (List.mem_cons_of_mem _ hc'))

/-- `scanPat` finds nothing in a pure digit run. -/
theorem scanPat_digits (b : Bool) (l : List Char) (h : ∀ c ∈ l, c.isDigit) :
    scanPat b l = [] := by
  induction l with
  | nil => exact scanPat_nil b
  | cons c rest ih =>
    have hc : c ≠ 'h' := by
      intro hq
      have := h c (List.mem_cons_self _ _)
      rw [hq] at this
      exact absurd this (by decide)
    rw [scanPat_cons_none b c rest (matchPat_not_h b c rest hc)]
    exact ih (fun c' hc' => h c' (List.mem_cons_of_mem _ hc'))

/-- The subdomain-capable pattern matches a whole subdomain-style item URL,
capturing the id. -/
theorem matchPat_subUrl (id : List Char) (hne : id ≠ [])
    (hdig : ∀ c ∈ id, c.isDigit) :
    matchPat true (subUrlChars ++ id) = some (id, []) := by
  obtain ⟨c, rest, rfl⟩ : ∃ c rest, id = c :: rest := by
    cases id with
    | nil => exact absurd rfl hne
    | cons c r => exact ⟨c, r, rfl⟩
  have hc : c.isDigit := hdig c (List.mem_cons_self _ _)
  have hci : ¬(('i' : Char) = c) := by
    intro h
    rw [← h] at hc
    exact absurd hc (by decide)
  have hdt : rest.takeWhile Char.isDigit = rest :=
    takeWhile_digits _ (fun x hx => hdig x (List.mem_cons_of_mem _ hx))
  simp [subUrlChars, matchPat, schemeRest, hostAndPath, itemsPath, wordSeg,
    parseDigits, eatPre, httpChars, schemeSepChars, boothHostChars,
    itemsSegChars, isWordDash, hci, hc, hdt, List.takeWhile]

/-- Both patterns match a whole path-style item URL, capturing the id. -/
theorem matchPat_pathUrl (b : Bool) (id : List Char) (hne : id ≠ [])
    (hdig : ∀ c ∈ id, c.isDigit) :
    matchPat b (pathUrlChars ++ id) = some (id, []) := by
  obtain ⟨c, rest, rfl⟩ : ∃ c rest, id = c :: rest := by
    cases id with
    | nil => exact absurd rfl hne
    | cons c r => exact ⟨c, r, rfl⟩
  have hc : c.isDigit := hdig c (List.mem_cons_self _ _)
  have hci : ¬(('i' : Char) = c) := by
    intro h
    rw [← h] at hc
    exact absurd hc (by decide)
  have hdt : rest.takeWhile Char.isDigit = rest :=
    takeWhile_digits _ (fun x hx => hdig x (List.mem_cons_of_mem _ hx))
  cases b <;>
    simp [pathUrlChars, matchPat, schemeRest, hostAndPath, itemsPath, wordSeg,
      parseDigits, eatPre, httpChars, schemeSepChars, boothHostChars,
      itemsSegChars, isWordDash, hci, hc, hdt, List.takeWhile]

/-- The main-domain pattern cannot match at the start of a subdomain-style
URL (the host check fails on the shop label). -/
theorem matchPat_sub_h0 (id : List Char) :
    matchPat false
      ('h' :: (['t','t','p','s',':','/','/','s'] ++
        ('h' :: (['o','p','.','b','o','o','t'] ++
          ('h' :: (['.','p','m','/','i','t','e','m','s','/'] ++ id)))))) =
      none := by
  simp [matchPat, schemeRest, hostAndPath, eatPre, httpChars, schemeSepChars,
    boothHostChars]

/-- No match starts at the `h` of `shop` inside a subdomain-style URL. -/
theorem matchPat_sub_h9 (id : List Char) :
    matchPat false
      ('h' :: (['o','p','.','b','o','o','t'] ++
        ('h' :: (['.','p','m','/','i','t','e','m','s','/'] ++ id)))) = none := by
  simp [matchPat, schemeRest, eatPre, httpChars]

/-- No match starts at the `h` of `booth` inside a subdomain-style URL. -/
theorem matchPat_sub_h17 (id : List Char) :
    matchPat false
      ('h' :: (['.','p','m','/','i','t','e','m','s','/'] ++ id)) = none := by
  simp [matchPat, schemeRest, eatPre, httpChars]

/-- A text that is exactly one matching URL scans to exactly its id. -/
theorem scanPat_of_match (b : Bool) (s d : List Char)
    (h : matchPat b s = some (d, [])) : scanPat b s = [d] := by
  rw [scanPat_match_eq b s d [] h, scanPat_nil]

/-- The main-domain pattern finds nothing anywhere in a subdomain-style URL. -/
theorem scanPat_subUrl_p2 (id : List Char) (hdig : ∀ c ∈ id, c.isDigit) :
    scanPat false (subUrlChars ++ id) = [] := by
  have hsplit : subUrlChars ++ id =
      'h' :: (['t','t','p','s',':','/','/','s'] ++
        ('h' :: (['o','p','.','b','o','o','t'] ++
          ('h' :: (['.','p','m','/','i','t','e','m','s','/'] ++ id))))) := by
    simp [subUrlChars]
  rw [hsplit]
  rw [scanPat_cons_none false _ _ (matchPat_sub_h0 id)]
  rw [scanPat_skip_nonH false _ _ (by decide)]
  rw [scanPat_cons_none false _ _ (matchPat_sub_h9 id)]
  rw [scanPat_skip_nonH false _ _ (by decide)]
  rw [scanPat_cons_none false _ _ (matchPat_sub_h17 id)]
  rw [scanPat_skip_nonH false _ _ (by decide)]
  exact scanPat_digits false id hdig

/-- Scanning the empty text yields nothing. -/
theorem findBooth_nil : findBoothUrlsInText [] = [] := by
  unfold findBoothUrlsInText
  rw [scanPat_nil, scanPat_nil]
  rfl

/-- Scanning a single item URL of either shape yields exactly its id (the
two patterns' duplicate hit on a path-style URL is de-duplicated). -/
theorem findBooth_url (subdomainStyle : Bool) (id : List Char) (hne : id ≠ [])
    (hdig : ∀ c ∈ id, c.isDigit) :
    findBoothUrlsInText (mkItemUrl subdomainStyle id) = [id] := by
  unfold findBoothUrlsInText mkItemUrl
  cases subdomainStyle with
  | true =>
    rw [if_pos rfl]
    rw [scanPat_of_match true _ id (matchPat_subUrl id hne hdig),
      scanPat_subUrl_p2 id hdig]
    simp [addUnique]
  | false =>
    rw [if_neg (by decide)]
    rw [scanPat_of_match true _ id (matchPat_pathUrl true id hne hdig),
      scanPat_of_match false _ id (matchPat_pathUrl false id hne hdig)]
    simp [addUnique]

/-- C9: a page whose scanned root region carries the three anchor URLs for
ids `[A, B, A]` (each in either URL shape) yields exactly the de-duplicated
references `[A, B]` — `totalFound = 2` — and the external result drops
whichever id equals the current page's own id. -/
theorem C9_theorem : ∀ (dA dB : List Char) (b₁ b₂ b₃ : Bool)
    (cur : Option (List Char)),
    dA ≠ [] → dB ≠ [] →
    (∀ c ∈ dA, c.isDigit) → (∀ c ∈ dB, c.isDigit) →
    dA ≠ dB →
    parsePageForBoothItems []
        [mkItemUrl b₁ dA, mkItemUrl b₂ dB, mkItemUrl b₃ dA] cur =
      (2, [dA, dB].filter (fun d => decide (some d ≠ cur))) := by
  intro dA dB b₁ b₂ b₃ cur hA hB hdA hdB hAB
  unfold parsePageForBoothItems extractBoothItemUrls
  simp only [List.map_cons, List.map_nil]
  rw [findBooth_nil, findBooth_url b₁ dA hA hdA, findBooth_url b₂ dB hB hdB,
    findBooth_url b₃ dA hA hdA]
  have hBA : ¬(dB = dA) := fun h => hAB h.symm
  simp [addUnique, hBA]

/-- C9 witness: ids `1`, `2`, `1` with the current page being item `1`. -/
theorem C9_theorem_witness :
    parsePageForBoothItems []
        [mkItemUrl true ['1'], mkItemUrl false ['2'], mkItemUrl false ['1']]
        (some ['1']) = (2, [['2']]) := by
  have h := C9_theorem ['1'] ['2'] true false false (some ['1']) (by decide)
    (by decide) (by decide) (by decide) (by decide)
  exact h.trans (by decide)

end AssetConnect
